import Mathlib

/-
  Verification development for the spec-verify repository (Go).

  The definitions below are shallow embeddings of the Go functions in
  internal/parser/coverage.go, internal/parser/endpoint.go,
  internal/parser (spec parsing), and internal/verifier/verifier.go.
  Strings are modelled as Lean `String` / `List Char`; Go `int` byte sizes
  and counts as `Nat`; Go `int` match percentages as `Int`; Go `float64`
  aggregates as `ℚ` (exact rational arithmetic; all concrete values involved
  are exactly representable in float64); a Go `error` as `Option String`;
  Go maps as association lists with last-write-wins value update.
-/

namespace parser

/-- Go `strings.Split(s, "/")` at the character level.  Splitting the empty
string yields one empty segment, as in Go. -/
def splitSlash : List Char → List (List Char)
  | [] => [[]]
  | c :: rest =>
    if c = '/' then [] :: splitSlash rest
    else
      match splitSlash rest with
      | [] => [[c]]
      | seg :: segs => (c :: seg) :: segs

/-- Go `strings.Trim(path, "/")`: drop '/' characters from both ends. -/
def trimSlashes (l : List Char) : List Char :=
  ((l.dropWhile (fun c => c == '/')).reverse.dropWhile (fun c => c == '/')).reverse

/-- Go `isPathParameter` (coverage.go lines 292-300): a segment of length at
least 2 that starts with ':', or starts with '{' and ends with '}', or starts
with '<' and ends with '>'. -/
def isPathParameterL : List Char → Bool
  | [] => false
  | [_] => false
  | c :: rest =>
    c == ':' || (c == '{' && rest.getLast? == some '}')
      || (c == '<' && rest.getLast? == some '>')

/-- Go `isPathParameter` on a `String` segment. -/
def isPathParameter (segment : String) : Bool :=
  isPathParameterL segment.data

/-- The pairwise segment-comparison loop of `pathsMatch`: the segment counts
must be equal, a parameter on either side matches anything, and literal
segments must be exactly equal. -/
def segmentsMatch : List (List Char) → List (List Char) → Bool
  | [], [] => true
  | [], _ :: _ => false
  | _ :: _, [] => false
  | s1 :: r1, s2 :: r2 =>
    (isPathParameterL s1 || isPathParameterL s2 || s1 == s2) && segmentsMatch r1 r2

/-- Go `pathsMatch` (coverage.go lines 252-289): if either path is empty the
result is their equality; exact equality short-circuits true; otherwise both
paths are trimmed of surrounding slashes, split on '/', and compared
segment-wise. -/
def pathsMatch (path1 path2 : String) : Bool :=
  if path1 = "" ∨ path2 = "" then path1 == path2
  else if path1 = path2 then true
  else segmentsMatch (splitSlash (trimSlashes path1.data)) (splitSlash (trimSlashes path2.data))

/-- The notion of a parameter marker used by claim C1's characterization, read
literally: a leading ':' (of any length, so the one-character segment ":"
qualifies), or a segment that starts with '{' and ends with '}', or one that
starts with '<' and ends with '>'. -/
def claimParamMarker : List Char → Bool
  | [] => false
  | c :: rest =>
    c == ':' || (c == '{' && (c :: rest).getLast? == some '}')
      || (c == '<' && (c :: rest).getLast? == some '>')

/-- Segment comparison as in claim C1's characterization, with its marker. -/
def claimSegmentsMatch : List (List Char) → List (List Char) → Bool
  | [], [] => true
  | [], _ :: _ => false
  | _ :: _, [] => false
  | s1 :: r1, s2 :: r2 =>
    (claimParamMarker s1 || claimParamMarker s2 || s1 == s2) && claimSegmentsMatch r1 r2

/-- Claim C1's characterization of `pathsMatch`, read literally as a three-way
disjunction: both empty, or equal as strings, or segment lists match. -/
def claimPathsMatch (a b : String) : Bool :=
  (a == "" && b == "") || a == b
    || claimSegmentsMatch (splitSlash (trimSlashes a.data)) (splitSlash (trimSlashes b.data))

/-- Claim C1 amended: when either path is empty the result is true exactly when
both are; otherwise string equality, or the segment comparison in which a
parameter marker additionally requires segment length at least 2 (the code's
`isPathParameter`). -/
def amendedPathsMatch (a b : String) : Bool :=
  if a = "" ∨ b = "" then a == b
  else a == b
    || segmentsMatch (splitSlash (trimSlashes a.data)) (splitSlash (trimSlashes b.data))

/-- One pass of Go `regexp.ReplaceAllString` for the pattern
`\{([^}]+)\}` with replacement `:$1` (endpoint.go `bracesPathParamRegex`),
as a character state machine.  State `none`: scanning for '{'.  State
`some acc`: inside a candidate match; `acc` holds the (reversed) body read
since the opening brace.  The body class `[^}]+` excludes only '}', so the
greedy body run ends at the first '}' and a match needs a nonempty body; on
failure the consumed characters are emitted literally, which agrees with the
regexp engine resuming at the next start position since no skipped character
can begin a match. -/
def braceGo : Option (List Char) → List Char → List Char
  | none, [] => []
  | none, c :: rest =>
    if c = '{' then braceGo (some []) rest else c :: braceGo none rest
  | some acc, [] => '{' :: acc.reverse
  | some acc, c :: rest =>
    if c = '}' then
      match acc with
      | [] => '{' :: '}' :: braceGo none rest
      | _ :: _ => ':' :: (acc.reverse ++ braceGo none rest)
    else braceGo (some (c :: acc)) rest

/-- Go `bracesPathParamRegex.ReplaceAllString(path, ":$1")`. -/
def bracesReplaceAll (s : String) : String := String.mk (braceGo none s.data)

/-- States of the scanner for the pattern `<[^:>]*:?([^>]+)>`. -/
inductive AngleSt where
  | seek : AngleSt
  | afterLt (accA : List Char) : AngleSt
  | afterColon (accA accCap : List Char) : AngleSt

/-- One pass of Go `regexp.ReplaceAllString` for the pattern
`<[^:>]*:?([^>]+)>` with replacement `:$1` (endpoint.go
`angleBracketPathParamRegex`), with the leftmost-first (Perl-style) semantics
of Go's regexp derived by hand: after '<', a run A of characters other than
':' and '>' is read greedily; if a ':' follows, the capture is the maximal
nonempty run of non-'>' characters after the ':' provided a '>' closes it
(when that run is empty, backtracking drops the optional ':' and the capture
becomes the ":" character itself); if a '>' directly follows a nonempty A,
backtracking hands only the LAST character of A to the mandatory capture
group — this is the `<id>` → `:d` mis-extraction.  Failure cases emit the
consumed characters literally; in each such case no skipped position can
start a match (a match would need a '>' further on, and none exists). -/
def angleGo : AngleSt → List Char → List Char
  | .seek, [] => []
  | .seek, c :: rest =>
    if c = '<' then angleGo (.afterLt []) rest else c :: angleGo .seek rest
  | .afterLt accA, [] => '<' :: accA.reverse
  | .afterLt accA, c :: rest =>
    if c = ':' then angleGo (.afterColon accA []) rest
    else if c = '>' then
      match accA with
      | [] => '<' :: '>' :: angleGo .seek rest
      | a :: _ => ':' :: a :: angleGo .seek rest
    else angleGo (.afterLt (c :: accA)) rest
  | .afterColon accA accCap, [] => '<' :: (accA.reverse ++ ':' :: accCap.reverse)
  | .afterColon accA accCap, c :: rest =>
    if c = '>' then
      match accCap with
      | [] => ':' :: ':' :: angleGo .seek rest
      | _ :: _ => ':' :: (accCap.reverse ++ angleGo .seek rest)
    else angleGo (.afterColon accA (c :: accCap)) rest

/-- Go `angleBracketPathParamRegex.ReplaceAllString(path, ":$1")`. -/
def angleReplaceAll (s : String) : String := String.mk (angleGo .seek s.data)

/-- Go `NormalizePath` (endpoint.go lines 358-364): braces replacement
followed by angle-bracket replacement. -/
def NormalizePath (path : String) : String :=
  angleReplaceAll (bracesReplaceAll path)

/-- Checker for claim C9's input class, "paths whose parameters use only the
colon or brace conventions": '<' and '>' never occur, and '{', '}' occur only
as a well-formed brace parameter `{name}` with a nonempty name free of
'{', '<', '>'.  Colons and slashes are ordinary characters.  State `none`:
outside a brace parameter; `some b`: inside one, `b` records whether the body
is nonempty so far. -/
def cbGo : Option Bool → List Char → Bool
  | none, [] => true
  | none, c :: rest =>
    if c = '{' then cbGo (some false) rest
    else if c = '}' ∨ c = '<' ∨ c = '>' then false
    else cbGo none rest
  | some _, [] => false
  | some b, c :: rest =>
    if c = '}' then b && cbGo none rest
    else if c = '{' ∨ c = '<' ∨ c = '>' then false
    else cbGo (some true) rest

/-- A path uses only the colon / brace parameter conventions. -/
def colonBraceOk (s : String) : Bool := cbGo none s.data

/-- Go `fileWithContent` (endpoint.go lines 169-173). -/
structure fileWithContent where
  path : String
  content : String
  size : Nat
deriving DecidableEq

/-- The loop of Go `splitIntoBatches` (endpoint.go lines 264-300), with the
mutable `currentBatch` and `currentSize` as explicit accumulators.  A file
larger than the ceiling flushes the current batch and goes into a batch of
its own; a file that would overflow the current batch flushes it and starts a
new one; otherwise the file is appended to the current batch. -/
def splitGo (maxBytes : Nat) :
    List fileWithContent → List fileWithContent → Nat → List (List fileWithContent)
  | [], cur, _ => if cur.isEmpty then [] else [cur]
  | fc :: rest, cur, curSize =>
    if maxBytes < fc.size then
      (if cur.isEmpty then [fc] :: splitGo maxBytes rest [] 0
       else cur :: [fc] :: splitGo maxBytes rest [] 0)
    else if maxBytes < curSize + fc.size then
      (if cur.isEmpty then splitGo maxBytes rest [fc] fc.size
       else cur :: splitGo maxBytes rest [fc] fc.size)
    else splitGo maxBytes rest (cur ++ [fc]) (curSize + fc.size)

/-- Go `splitIntoBatches(files, maxBytes)`. -/
def splitIntoBatches (files : List fileWithContent) (maxBytes : Nat) :
    List (List fileWithContent) :=
  splitGo maxBytes files [] 0

/-- The backtick character (U+0060). -/
def backtickChar : Char := Char.ofNat 96

/-- ASCII whitespace, the relevant fragment of Go `strings.TrimSpace`. -/
def isSpaceChar (c : Char) : Bool := c == ' ' || c == '\t' || c == '\n' || c == '\r'

/-- Go `strings.TrimSpace` (ASCII fragment). -/
def trimSpace (s : String) : String :=
  String.mk (((s.data.dropWhile isSpaceChar).reverse.dropWhile isSpaceChar).reverse)

/-- Go `strings.Trim(value, "`")`: drop backticks from both ends. -/
def trimBackticks (s : String) : String :=
  String.mk (((s.data.dropWhile (fun c => c == backtickChar)).reverse.dropWhile
    (fun c => c == backtickChar)).reverse)

/-- Go map write `m[k] = v` on an association-list model: overwrite the value
if the key is present, otherwise add the binding. -/
def insertAssoc {α : Type} (m : List (String × α)) (k : String) (v : α) :
    List (String × α) :=
  match m with
  | [] => [(k, v)]
  | (k', v') :: rest => if k' = k then (k, v) :: rest else (k', v') :: insertAssoc rest k v

/-- Whether `pat` occurs as a contiguous substring, Go `strings.Contains`. -/
def hasSubstr (pat : List Char) : List Char → Bool
  | [] => pat.isEmpty
  | c :: rest => pat.isPrefixOf (c :: rest) || hasSubstr pat rest

/-- Matching one line against the Go table-row regex
`^\|\s*([^|]+)\s*\|\s*([^|]+)\s*\|$` (spec parsing): the line is exactly
`|cell1|cell2|` where each cell is nonempty and free of '|'; the surrounding
`\s*` parts only shift whitespace into the captures, which are trimmed by the
caller anyway, so the captures here are the raw cells. -/
def matchTableRow (line : List Char) : Option (List Char × List Char) :=
  match line with
  | '|' :: rest =>
    match rest.dropWhile (fun c => c != '|') with
    | '|' :: rest2 =>
      if (rest.takeWhile (fun c => c != '|')).isEmpty then none
      else
        match rest2.dropWhile (fun c => c != '|') with
        | '|' :: rest3 =>
          if (rest2.takeWhile (fun c => c != '|')).isEmpty then none
          else if rest3.isEmpty then
            some (rest.takeWhile (fun c => c != '|'), rest2.takeWhile (fun c => c != '|'))
          else none
        | _ => none
    | _ => none
  | _ => none

/-- The metadata-table parsing state: the `inTable` flag and the `Spec` fields
written by `parseMetadataTable`. -/
structure MetaAcc where
  inTable : Bool
  Metadata : List (String × String)
  RoutePath : String
deriving DecidableEq

/-- The keys of the two `switch` cases in Go `parseMetadataTable` that set
`RoutePath`. -/
def routeKeys : List String :=
  ["パス", "Path", "path", "エンドポイント", "Endpoint", "endpoint"]

/-- One iteration of the Go `parseMetadataTable` loop: trim the line, update
the `inTable` flag (a line that starts and ends with '|' enters a table, a
blank line leaves it), skip separator lines containing "---", and record a
row matching the table regex into `Metadata`, stripping backticks from the
value and setting `RoutePath` when the key is one of the recognized path /
endpoint labels. -/
def parseMetadataStep (acc : MetaAcc) (rawLine : String) : MetaAcc :=
  let line := trimSpace rawLine
  let inTable :=
    if line.data.head? == some '|' && line.data.getLast? == some '|' then true
    else if acc.inTable && (line == "") then false
    else acc.inTable
  if !inTable then { acc with inTable := inTable }
  else if hasSubstr ['-', '-', '-'] line.data then { acc with inTable := inTable }
  else
    match matchTableRow line.data with
    | some (k, v) =>
      let key := trimSpace (String.mk k)
      let value := trimBackticks (trimSpace (String.mk v))
      { inTable := inTable
        Metadata := insertAssoc acc.Metadata key value
        RoutePath := if key ∈ routeKeys then value else acc.RoutePath }
    | none => { acc with inTable := inTable }

/-- Go `parseMetadataTable` over the document's lines. -/
def parseMetadataTable (lines : List String) : MetaAcc :=
  lines.foldl parseMetadataStep ⟨false, [], ""⟩

/-- States of the scanner for the related-file pattern `` `~/([^`]+)` ``. -/
inductive TildeSt where
  | seek : TildeSt
  | tick : TildeSt
  | tilde : TildeSt
  | body (acc : List Char) : TildeSt

/-- All captures of Go `tildeRegex.FindAllStringSubmatch` in document order:
a backtick, then "~/", then a nonempty run of non-backtick characters
(the capture), then a closing backtick.  On a failed attempt scanning resumes
at the failing character, which is the only place a new backtick can start a
fresh attempt. -/
def tildeGo : TildeSt → List Char → List (List Char)
  | _, [] => []
  | .seek, c :: rest =>
    if c = backtickChar then tildeGo .tick rest else tildeGo .seek rest
  | .tick, c :: rest =>
    if c = '~' then tildeGo .tilde rest
    else if c = backtickChar then tildeGo .tick rest
    else tildeGo .seek rest
  | .tilde, c :: rest =>
    if c = '/' then tildeGo (.body []) rest
    else if c = backtickChar then tildeGo .tick rest
    else tildeGo .seek rest
  | .body acc, c :: rest =>
    if c = backtickChar then
      match acc with
      | [] => tildeGo .tick rest
      | _ :: _ => acc.reverse :: tildeGo .seek rest
    else tildeGo (.body (c :: acc)) rest

/-- States of the scanner for the related-file pattern `` `(src/[^`]+)` ``. -/
inductive SrcSt where
  | seek : SrcSt
  | tick : SrcSt
  | s1 : SrcSt
  | s2 : SrcSt
  | s3 : SrcSt
  | body (acc : List Char) : SrcSt

/-- All captures of Go `srcRegex.FindAllStringSubmatch` in document order: a
backtick, then "src/", then a nonempty run of non-backtick characters, then a
closing backtick; the capture includes the "src/" prefix. -/
def srcGo : SrcSt → List Char → List (List Char)
  | _, [] => []
  | .seek, c :: rest =>
    if c = backtickChar then srcGo .tick rest else srcGo .seek rest
  | .tick, c :: rest =>
    if c = 's' then srcGo .s1 rest
    else if c = backtickChar then srcGo .tick rest
    else srcGo .seek rest
  | .s1, c :: rest =>
    if c = 'r' then srcGo .s2 rest
    else if c = backtickChar then srcGo .tick rest
    else srcGo .seek rest
  | .s2, c :: rest =>
    if c = 'c' then srcGo .s3 rest
    else if c = backtickChar then srcGo .tick rest
    else srcGo .seek rest
  | .s3, c :: rest =>
    if c = '/' then srcGo (.body []) rest
    else if c = backtickChar then srcGo .tick rest
    else srcGo .seek rest
  | .body acc, c :: rest =>
    if c = backtickChar then
      match acc with
      | [] => srcGo .tick rest
      | _ :: _ => ('s' :: 'r' :: 'c' :: '/' :: acc.reverse) :: srcGo .seek rest
    else srcGo (.body (c :: acc)) rest

/-- Go `parseRelatedFiles`: all `~/`-convention captures in document order,
followed by all `src/`-convention captures in document order. -/
def parseRelatedFiles (content : String) : List String :=
  (tildeGo .seek content.data).map String.mk ++ (srcGo .seek content.data).map String.mk

/-- Go `filepath.Base`: "." for the empty path, trailing slashes stripped,
then the last '/'-separated element; "/" when the path consists of slashes. -/
def baseName (path : String) : String :=
  if path = "" then "."
  else
    let l := (path.data.reverse.dropWhile (fun c => c == '/')).reverse
    if l.isEmpty then "/"
    else String.mk ((l.reverse.takeWhile (fun c => c != '/')).reverse)

/-- The `parser.Spec` structure (spec parsing); Go's `Type` field is renamed
`Type'` since `Type` is a Lean keyword, and the two Go maps are association
lists. -/
structure Spec where
  FilePath : String
  Type' : String
  Title : String
  RoutePath : String
  RelatedFiles : List String
  Content : String
  Metadata : List (String × String)
  Sections : List (String × String)
deriving DecidableEq

/-- Go `parser.Endpoint` (endpoint.go lines 16-35). -/
structure Endpoint where
  Method : String
  Path : String
  Source : String
  Category : String
  File : String
  Description : String
deriving DecidableEq

/-- Go `parser.CoverageItem` (coverage.go lines 70-88). -/
structure CoverageItem where
  Method : String
  Path : String
  Source : String
  Category : String
  File : String
  SpecFile : String
deriving DecidableEq

/-- Go `parser.OrphanedSpec` (coverage.go lines 91-100). -/
structure OrphanedSpec where
  File : String
  Title : String
  RoutePath : String
deriving DecidableEq

/-- Go `parser.CategoryCoverage` (coverage.go lines 46-67); `Percentage`
(float64) is modelled as ℚ. -/
structure CategoryCoverage where
  Category : String
  Total : Nat
  Covered : Nat
  Uncovered : Nat
  Percentage : ℚ
  CoveredItems : List CoverageItem
  UncoveredItems : List CoverageItem
deriving DecidableEq

/-- Go `parser.CoverageReport` (coverage.go lines 13-43); `CoveragePercentage`
(float64) is modelled as ℚ and the `ByCategory` map as an association list. -/
structure CoverageReport where
  TotalEndpoints : Nat
  CoveredEndpoints : Nat
  UncoveredEndpoints : Nat
  CoveragePercentage : ℚ
  TotalSpecs : Nat
  OrphanedSpecs : Nat
  Covered : List CoverageItem
  Uncovered : List CoverageItem
  Orphaned : List OrphanedSpec
  ByCategory : List (String × CategoryCoverage)
deriving DecidableEq

/-- The `specPathMap` built by `CalculateCoverage`: specs with a nonempty
`RoutePath` are indexed by normalized path, later specs overwriting earlier
ones that share a normalized path. -/
def buildSpecPathMap (specs : List Spec) : List (String × Spec) :=
  specs.foldl
    (fun m spec =>
      if spec.RoutePath = "" then m
      else insertAssoc m (NormalizePath spec.RoutePath) spec) []

/-- Association-list lookup, the exact-key `specPathMap[normalizedPath]`. -/
def lookupAssoc {α : Type} : List (String × α) → String → Option α
  | [], _ => none
  | (k, v) :: rest, key => if k = key then some v else lookupAssoc rest key

/-- The spec matched by a route path in `CalculateCoverage`: an exact
normalized-path lookup first, then the first index entry whose path matches
via `pathsMatch`.  (Go iterates its map in unspecified order; the model uses
the index's insertion order.) -/
def matchSpecFor (m : List (String × Spec)) (normalizedPath : String) : Option Spec :=
  match lookupAssoc m normalizedPath with
  | some spec => some spec
  | none => (m.find? (fun kv => pathsMatch normalizedPath kv.1)).map Prod.snd

/-- Membership-preserving insertion for the `matchedSpecs` set (a Go
`map[string]bool` used as a set). -/
def insertStr (l : List String) (s : String) : List String :=
  if s ∈ l then l else l ++ [s]

/-- Update (or initialize) one category's entry in the `ByCategory` map, as
`initCategoryIfNeeded` plus the in-place field updates do in Go. -/
def updateCat (m : List (String × CategoryCoverage)) (cat : String)
    (f : CategoryCoverage → CategoryCoverage) : List (String × CategoryCoverage) :=
  match m with
  | [] => [(cat, f ⟨cat, 0, 0, 0, 0, [], []⟩)]
  | (k, v) :: rest => if k = cat then (k, f v) :: rest else (k, v) :: updateCat rest cat f

/-- The mutable state of the per-endpoint loop of `CalculateCoverage`. -/
structure CovAcc where
  covered : List CoverageItem
  uncovered : List CoverageItem
  coveredCount : Nat
  uncoveredCount : Nat
  matchedSpecs : List String
  byCategory : List (String × CategoryCoverage)
deriving DecidableEq

/-- One iteration of the per-endpoint loop of `CalculateCoverage` (coverage.go
lines 165-221): default the category to "api", normalize the path, find a
matching spec (exact lookup, then tolerant scan); a match appends a covered
item annotated with the spec's base file name and marks the spec matched, a
miss appends an uncovered item; category tallies are updated either way. -/
def covStep (m : List (String × Spec)) (acc : CovAcc) (ep : Endpoint) : CovAcc :=
  let category := if ep.Category = "" then "api" else ep.Category
  let normalizedPath := NormalizePath ep.Path
  let item0 : CoverageItem :=
    { Method := ep.Method, Path := ep.Path, Source := ep.Source,
      Category := category, File := ep.File, SpecFile := "" }
  match matchSpecFor m normalizedPath with
  | some spec =>
    let item := { item0 with SpecFile := baseName spec.FilePath }
    { covered := acc.covered ++ [item]
      uncovered := acc.uncovered
      coveredCount := acc.coveredCount + 1
      uncoveredCount := acc.uncoveredCount
      matchedSpecs := insertStr acc.matchedSpecs spec.FilePath
      byCategory := updateCat acc.byCategory category (fun c =>
        { c with Covered := c.Covered + 1, Total := c.Total + 1,
                 CoveredItems := c.CoveredItems ++ [item] }) }
  | none =>
    { covered := acc.covered
      uncovered := acc.uncovered ++ [item0]
      coveredCount := acc.coveredCount
      uncoveredCount := acc.uncoveredCount + 1
      matchedSpecs := acc.matchedSpecs
      byCategory := updateCat acc.byCategory category (fun c =>
        { c with Uncovered := c.Uncovered + 1, Total := c.Total + 1,
                 UncoveredItems := c.UncoveredItems ++ [item0] }) }

/-- The per-category percentage pass of `CalculateCoverage` (coverage.go lines
224-228). -/
def finalizeCategories (m : List (String × CategoryCoverage)) :
    List (String × CategoryCoverage) :=
  m.map (fun kv =>
    (kv.1,
     if 0 < kv.2.Total then
       { kv.2 with Percentage := (kv.2.Covered : ℚ) / (kv.2.Total : ℚ) * 100 }
     else kv.2))

/-- The orphan-detection pass of `CalculateCoverage` (coverage.go lines
231-240): every parsed spec never marked matched becomes an `OrphanedSpec`. -/
def orphansOf (specs : List Spec) (matched : List String) : List OrphanedSpec :=
  (specs.filter (fun s => !(matched.contains s.FilePath))).map
    (fun s => { File := baseName s.FilePath, Title := s.Title, RoutePath := s.RoutePath })

/-- The reconciliation core of Go `CalculateCoverage` (coverage.go lines
103-248), taking the extracted endpoints and the successfully parsed specs as
inputs (route extraction, spec-file discovery and `ParseSpec` are I/O
collaborators; `ParseSpec` fails only on an unreadable file, so in the pure
model every discovered spec is parsed and `TotalSpecs` is the spec count). -/
def CalculateCoverage (endpoints : List Endpoint) (specs : List Spec) : CoverageReport :=
  let m := buildSpecPathMap specs
  let acc := endpoints.foldl (covStep m) ⟨[], [], 0, 0, [], []⟩
  let orphaned := orphansOf specs acc.matchedSpecs
  { TotalEndpoints := endpoints.length
    CoveredEndpoints := acc.coveredCount
    UncoveredEndpoints := acc.uncoveredCount
    CoveragePercentage :=
      if 0 < endpoints.length then
        (acc.coveredCount : ℚ) / (endpoints.length : ℚ) * 100
      else 0
    TotalSpecs := specs.length
    OrphanedSpecs := orphaned.length
    Covered := acc.covered
    Uncovered := acc.uncovered
    Orphaned := orphaned
    ByCategory := finalizeCategories acc.byCategory }

/-- The set of spec files marked matched during the `CalculateCoverage` run. -/
def coverageMatchedSpecs (endpoints : List Endpoint) (specs : List Spec) : List String :=
  (endpoints.foldl (covStep (buildSpecPathMap specs)) ⟨[], [], 0, 0, [], []⟩).matchedSpecs

end parser

namespace ai

/-- Go `ai.VerificationResult`; `MatchPercentage` is a Go `int`. -/
structure VerificationResult where
  MatchPercentage : Int
  MatchedItems : List String
  UnmatchedItems : List String
  Notes : String
deriving DecidableEq

end ai

namespace verifier

/-- Go `verifier.Result`; a Go `error` is modelled as `Option String`. -/
structure Result where
  SpecFile : String
  Title : String
  RoutePath : String
  CodeFiles : List String
  Verification : Option ai.VerificationResult
  Error : Option String
deriving DecidableEq

/-- Go `verifier.Summary`; `AverageMatch` (float64) is modelled as ℚ. -/
structure Summary where
  TotalSpecs : Nat
  VerifiedSpecs : Nat
  AverageMatch : ℚ
  HighMatchCount : Nat
  LowMatchCount : Nat
  Results : List Result
deriving DecidableEq

/-- One iteration of the loop of Go `calculateSummary` (verifier.go lines
194-206) over the accumulator (verifiedSpecs, totalMatch, highMatchCount,
lowMatchCount): a result with no error and a non-nil verification is counted,
its match percentage added, and the ≥80 / else-if <50 tallies updated. -/
def summaryStep (acc : Nat × Int × Nat × Nat) (r : Result) : Nat × Int × Nat × Nat :=
  match r.Error, r.Verification with
  | none, some v =>
    (acc.1 + 1,
     acc.2.1 + v.MatchPercentage,
     acc.2.2.1 + (if 80 ≤ v.MatchPercentage then 1 else 0),
     acc.2.2.2 +
       (if 80 ≤ v.MatchPercentage then 0 else if v.MatchPercentage < 50 then 1 else 0))
  | _, _ => acc

/-- Go `calculateSummary` (verifier.go lines 188-213). -/
def calculateSummary (results : List Result) : Summary :=
  let acc := results.foldl summaryStep (0, 0, 0, 0)
  { TotalSpecs := results.length
    VerifiedSpecs := acc.1
    AverageMatch := if 0 < acc.1 then (acc.2.1 : ℚ) / (acc.1 : ℚ) else 0
    HighMatchCount := acc.2.2.1
    LowMatchCount := acc.2.2.2
    Results := results }

/-- Go `(s *Summary) IsPassing(threshold int)` (verifier.go lines 216-218). -/
def Summary.IsPassing (s : Summary) (threshold : Int) : Bool :=
  decide ((threshold : ℚ) ≤ s.AverageMatch)

/-- A result counted by `calculateSummary`: no error and a verification. -/
def isSuccessfullyVerified (r : Result) : Bool :=
  r.Error.isNone && r.Verification.isSome

/-- The match percentage of a result (0 when there is no verification). -/
def matchPct (r : Result) : Int :=
  (r.Verification.map ai.VerificationResult.MatchPercentage).getD 0

/-- Go `verifyOne` (verifier.go lines 135-185), with its I/O collaborators —
`parser.ParseSpec`, `parser.FindCodeFiles`, `parser.ReadFiles` and the
provider's `Verify` — abstracted as explicit inputs.  A parse or discovery
failure is recorded on the result; when zero code files resolve, a canned
zero-match verification is returned without consulting the judge; otherwise
the files are read and the judge's verdict (or error) is recorded. -/
def verifyOne (specFile : String)
    (parseSpecRes : Except String parser.Spec)
    (findCodeFilesRes : parser.Spec → Except String (List String))
    (readFilesRes : List String → Except String (List (String × String)))
    (judgeVerify : String → List (String × String) → Except String ai.VerificationResult) :
    Result :=
  match parseSpecRes with
  | .error e =>
    { SpecFile := parser.baseName specFile, Title := "", RoutePath := "",
      CodeFiles := [], Verification := none,
      Error := some ("failed to parse spec: " ++ e) }
  | .ok spec =>
    match findCodeFilesRes spec with
    | .error e =>
      { SpecFile := parser.baseName specFile, Title := spec.Title,
        RoutePath := spec.RoutePath, CodeFiles := [], Verification := none,
        Error := some ("failed to find code files: " ++ e) }
    | .ok codeFiles =>
      if codeFiles.isEmpty then
        { SpecFile := parser.baseName specFile, Title := spec.Title,
          RoutePath := spec.RoutePath, CodeFiles := codeFiles,
          Verification := some
            { MatchPercentage := 0, MatchedItems := [],
              UnmatchedItems := ["対応するコードが見つかりません"],
              Notes := "未実装の可能性があります" },
          Error := none }
      else
        match readFilesRes codeFiles with
        | .error e =>
          { SpecFile := parser.baseName specFile, Title := spec.Title,
            RoutePath := spec.RoutePath, CodeFiles := codeFiles,
            Verification := none,
            Error := some ("failed to read code files: " ++ e) }
        | .ok contents =>
          match judgeVerify spec.Content contents with
          | .error e =>
            { SpecFile := parser.baseName specFile, Title := spec.Title,
              RoutePath := spec.RoutePath, CodeFiles := codeFiles,
              Verification := none,
              Error := some ("failed to verify with AI: " ++ e) }
          | .ok v =>
            { SpecFile := parser.baseName specFile, Title := spec.Title,
              RoutePath := spec.RoutePath, CodeFiles := codeFiles,
              Verification := some v, Error := none }

end verifier

/-- The results counted by `calculateSummary`: no error, non-nil verification
(the verified-result filter of claim C3). -/
def verifiedOf (results : List verifier.Result) : List verifier.Result :=
  results.filter verifier.isSuccessfullyVerified

/-- Successfully verified results carrying the given match percentages, the
shape produced by the claim C3 orchestrator example. -/
def demoResults (ns : List Int) : List verifier.Result :=
  ns.map (fun n =>
    { SpecFile := ""
      Title := ""
      RoutePath := ""
      CodeFiles := []
      Verification := some ⟨n, [], [], ""⟩
      Error := none })

/-- A concrete spec value used for instantiating the verifier theorems. -/
def demoSpec : parser.Spec :=
  { FilePath := "specs/a.md"
    Type' := "api"
    Title := "T"
    RoutePath := "/a"
    RelatedFiles := []
    Content := "c"
    Metadata := []
    Sections := [] }

/- ------------------------------------------------------------------ -/
/- Theorems                                                            -/
/- ------------------------------------------------------------------ -/

theorem data_mk (l : List Char) : (String.mk l).data = l := rfl

theorem beqComm {α : Type} [BEq α] [LawfulBEq α] (a b : α) : (a == b) = (b == a) := by
  by_cases h : a = b
  · subst h; rfl
  · cases hab : (a == b) with
    | true => exact absurd (eq_of_beq hab) h
    | false =>
      cases hba : (b == a) with
      | true => exact absurd (eq_of_beq hba).symm h
      | false => rfl

theorem beqFalse {α : Type} [BEq α] [LawfulBEq α] {a b : α} (h : a ≠ b) :
    (a == b) = false := by
  cases hab : (a == b) with
  | true => exact absurd (eq_of_beq hab) h
  | false => rfl

theorem segmentsMatch_comm (l1 l2 : List (List Char)) :
    parser.segmentsMatch l1 l2 = parser.segmentsMatch l2 l1 := by
  induction l1 generalizing l2 with
  | nil => cases l2 <;> rfl
  | cons s1 r1 ih =>
    cases l2 with
    | nil => rfl
    | cons s2 r2 =>
      simp only [parser.segmentsMatch, ih r2]
      rw [beqComm s1 s2]
      cases parser.isPathParameterL s1 <;> cases parser.isPathParameterL s2 <;> simp

/-- C8: the matcher is reflexive — `pathsMatch p p` is true for every path —
and symmetric — `pathsMatch a b = pathsMatch b a` for all paths. -/
theorem C8_pathsMatch_refl_symm :
    (∀ p : String, parser.pathsMatch p p = true) ∧
    (∀ a b : String, parser.pathsMatch a b = parser.pathsMatch b a) := by
  constructor
  · intro p
    unfold parser.pathsMatch
    by_cases h : p = "" <;> simp [h]
  · intro a b
    unfold parser.pathsMatch
    by_cases h : a = "" ∨ b = ""
    · rw [if_pos h, if_pos (or_comm.mp h), beqComm]
    · rw [if_neg h, if_neg (fun hc => h (or_comm.mp hc))]
      by_cases h2 : a = b
      · rw [if_pos h2, if_pos h2.symm]
      · rw [if_neg h2, if_neg (Ne.symm h2), segmentsMatch_comm]

/-- C1 counterexamples: the claimed three-way-disjunction characterization of
`pathsMatch` disagrees with the code at `("", "/")` — the code's either-empty
short-circuit returns false while the claimed segment clause matches — and at
`("/:", "/x")` — the code requires a parameter marker to have length at least
2, so the one-character segment ":" is a literal, while the claim's "leading
':'" marker matches. -/
theorem C1_counterexample :
    (parser.pathsMatch "" "/" = false ∧ parser.claimPathsMatch "" "/" = true) ∧
    (parser.pathsMatch "/:" "/x" = false ∧ parser.claimPathsMatch "/:" "/x" = true) := by
  decide

/-- C1 amended: `pathsMatch(a, b)` is true exactly when: if either path is
empty, both are; otherwise `a = b` as strings, or, after splitting on '/'
with surrounding slashes ignored, the segment lists have equal length and at
every position either side's segment is a parameter marker of length at
least 2 (leading ':', fully brace-wrapped, or fully angle-bracket-wrapped) or
the two segments are exactly equal.  The claim's five concrete examples all
hold. -/
theorem C1_pathsMatch_amended :
    (∀ a b : String, parser.pathsMatch a b = parser.amendedPathsMatch a b) ∧
    parser.pathsMatch "/users/:id" "/users/123" = true ∧
    parser.pathsMatch "/users" "/posts" = false ∧
    parser.pathsMatch "/users/123/posts" "/users/123" = false ∧
    parser.pathsMatch "" "" = true ∧
    parser.pathsMatch "/users" "" = false := by
  refine ⟨?_, by decide, by decide, by decide, by decide, by decide⟩
  intro a b
  unfold parser.pathsMatch parser.amendedPathsMatch
  by_cases h : a = "" ∨ b = ""
  · simp [h]
  · by_cases h2 : a = b
    · simp [h, h2]
    · simp [h, h2, beqFalse h2]

/-- C7: `NormalizePath` rewrites brace parameters and typed angle-bracket
parameters to the colon form preserving the name, but mis-extracts the name
of an untyped angle-bracket parameter, producing exactly the documented
defective output `"/users/:d"` for `"/users/<id>"` rather than
`"/users/:id"`. -/
theorem C7_NormalizePath_angle_defect :
    parser.NormalizePath "/users/{id}" = "/users/:id" ∧
    parser.NormalizePath "/users/<int:id>" = "/users/:id" ∧
    parser.NormalizePath "/users/<id>" = "/users/:d" ∧
    parser.NormalizePath "/users/<id>" ≠ "/users/:id" := by
  decide

theorem angleGo_id (l : List Char) (h : '<' ∉ l) : parser.angleGo .seek l = l := by
  induction l with
  | nil => rfl
  | cons c rest ih =>
    have hc : ¬c = '<' := fun hc => h (hc ▸ List.mem_cons_self c rest)
    have hrest : '<' ∉ rest := fun hm => h (List.mem_cons_of_mem c hm)
    simp [parser.angleGo, hc, ih hrest]

theorem braceGo_id (l : List Char) (h : '{' ∉ l) : parser.braceGo none l = l := by
  induction l with
  | nil => rfl
  | cons c rest ih =>
    have hc : ¬c = '{' := fun hc => h (hc ▸ List.mem_cons_self c rest)
    have hrest : '{' ∉ rest := fun hm => h (List.mem_cons_of_mem c hm)
    simp [parser.braceGo, hc, ih hrest]

theorem braceGo_ok (l : List Char) :
    (parser.cbGo none l = true →
      ∀ c ∈ parser.braceGo none l, c ≠ '{' ∧ c ≠ '<') ∧
    (∀ acc b, parser.cbGo (some b) l = true → (b = true → acc ≠ []) →
      (∀ c ∈ acc, c ≠ '{' ∧ c ≠ '<') →
      ∀ c ∈ parser.braceGo (some acc) l, c ≠ '{' ∧ c ≠ '<') := by
  induction l with
  | nil =>
    constructor
    · intro _ c hc
      simp [parser.braceGo] at hc
    · intro acc b hcb
      simp [parser.cbGo] at hcb
  | cons x rest ih =>
    constructor
    · intro hcb c hc
      by_cases hx : x = '{'
      · subst hx
        simp only [parser.cbGo, if_pos rfl] at hcb
        simp only [parser.braceGo, if_pos rfl] at hc
        exact ih.2 [] false hcb (by simp) (by simp) c hc
      · by_cases hs : x = '}' ∨ x = '<' ∨ x = '>'
        · simp [parser.cbGo, hx, hs] at hcb
        · simp only [parser.cbGo, if_neg hx, if_neg hs] at hcb
          simp only [parser.braceGo, if_neg hx, List.mem_cons] at hc
          rcases hc with rfl | hc
          · push_neg at hs
            exact ⟨hx, hs.2.1⟩
          · exact ih.1 hcb c hc
    · intro acc b hcb hbacc haccok c hc
      by_cases hx : x = '}'
      · subst hx
        simp [parser.cbGo] at hcb
        obtain ⟨hb, hcb'⟩ := hcb
        cases acc with
        | nil => exact absurd rfl (hbacc hb)
        | cons a as =>
          simp [parser.braceGo] at hc
          rcases hc with rfl | hc | rfl | hc
          · exact ⟨by decide, by decide⟩
          · exact haccok c (List.mem_cons_of_mem a hc)
          · exact haccok c (List.mem_cons_self c as)
          · exact ih.1 hcb' c hc
      · by_cases hs : x = '{' ∨ x = '<' ∨ x = '>'
        · simp [parser.cbGo, hx, hs] at hcb
        · simp only [parser.cbGo, if_neg hx, if_neg hs] at hcb
          simp only [parser.braceGo, if_neg hx] at hc
          refine ih.2 (x :: acc) true hcb (by simp) ?_ c hc
          intro d hd
          rcases List.mem_cons.mp hd with rfl | hd
          · push_neg at hs
            exact ⟨hs.1, hs.2.1⟩
          · exact haccok d hd

/-- C9: `NormalizePath` is idempotent on every path whose parameters use only
the colon (`:name`) or brace (`{name}`) conventions — after the braces pass
no '{' remains and no '<' ever occurs, so both regex passes of the second
application leave the string unchanged. -/
theorem C9_NormalizePath_idempotent (p : String) (h : parser.colonBraceOk p = true) :
    parser.NormalizePath (parser.NormalizePath p) = parser.NormalizePath p := by
  have hout := (braceGo_ok p.data).1 h
  have hnolt : '<' ∉ parser.braceGo none p.data := fun hm => (hout _ hm).2 rfl
  have hnolb : '{' ∉ parser.braceGo none p.data := fun hm => (hout _ hm).1 rfl
  simp [parser.NormalizePath, parser.angleReplaceAll, parser.bracesReplaceAll, data_mk,
    angleGo_id _ hnolt, braceGo_id _ hnolb]

/-- Witness for C9 at the concrete path "/users/{id}/posts/:postId". -/
theorem C9_witness :
    parser.colonBraceOk "/users/{id}/posts/:postId" = true ∧
    parser.NormalizePath (parser.NormalizePath "/users/{id}/posts/:postId") =
      parser.NormalizePath "/users/{id}/posts/:postId" :=
  ⟨by decide, C9_NormalizePath_idempotent _ (by decide)⟩

theorem splitGo_spec (maxBytes : Nat) (files : List parser.fileWithContent) :
    ∀ (cur : List parser.fileWithContent) (curSize : Nat),
      curSize = (cur.map parser.fileWithContent.size).sum →
      curSize ≤ maxBytes →
      (∀ f ∈ cur, f.size ≤ maxBytes) →
      (parser.splitGo maxBytes files cur curSize).flatten = cur ++ files ∧
      ∀ b ∈ parser.splitGo maxBytes files cur curSize,
        ((b.map parser.fileWithContent.size).sum ≤ maxBytes ∧ ∀ f ∈ b, f.size ≤ maxBytes)
          ∨ ∃ f, b = [f] ∧ maxBytes < f.size := by
  induction files with
  | nil =>
    intro cur curSize hcs hsum hall
    by_cases hc : cur = []
    · subst hc
      exact ⟨by simp [parser.splitGo], by intro b hb; simp [parser.splitGo] at hb⟩
    · have hc' : cur.isEmpty = false := by
        cases cur with
        | nil => exact absurd rfl hc
        | cons a as => rfl
      constructor
      · simp [parser.splitGo, hc']
      · intro b hb
        simp [parser.splitGo, hc'] at hb
        subst hb
        exact Or.inl ⟨hcs ▸ hsum, hall⟩
  | cons fc rest ihf =>
    intro cur curSize hcs hsum hall
    have hcurle : (cur.map parser.fileWithContent.size).sum ≤ maxBytes := hcs ▸ hsum
    by_cases hA : maxBytes < fc.size
    · have ih0 := ihf [] 0 (by simp) (by simp) (by simp)
      by_cases hc : cur = []
      · subst hc
        have heq : parser.splitGo maxBytes (fc :: rest) [] curSize =
            [fc] :: parser.splitGo maxBytes rest [] 0 := by
          simp [parser.splitGo, hA]
        constructor
        · rw [heq]
          simp [ih0.1]
        · intro b hb
          rw [heq, List.mem_cons] at hb
          rcases hb with rfl | hb
          · exact Or.inr ⟨fc, rfl, hA⟩
          · exact ih0.2 b hb
      · have hc' : cur.isEmpty = false := by
          cases cur with
          | nil => exact absurd rfl hc
          | cons a as => rfl
        have heq : parser.splitGo maxBytes (fc :: rest) cur curSize =
            cur :: [fc] :: parser.splitGo maxBytes rest [] 0 := by
          simp [parser.splitGo, hA, hc']
        constructor
        · rw [heq]
          simp [ih0.1]
        · intro b hb
          rw [heq, List.mem_cons, List.mem_cons] at hb
          rcases hb with rfl | rfl | hb
          · exact Or.inl ⟨hcurle, hall⟩
          · exact Or.inr ⟨fc, rfl, hA⟩
          · exact ih0.2 b hb
    · have hfc : fc.size ≤ maxBytes := Nat.not_lt.mp hA
      by_cases hB : maxBytes < curSize + fc.size
      · have ih1 := ihf [fc] fc.size (by simp) hfc
          (by intro f hf; rw [List.mem_singleton] at hf; subst hf; exact hfc)
        by_cases hc : cur = []
        · subst hc
          simp at hcs
          subst hcs
          simp at hB
          exact absurd hB hA
        · have hc' : cur.isEmpty = false := by
            cases cur with
            | nil => exact absurd rfl hc
            | cons a as => rfl
          have heq : parser.splitGo maxBytes (fc :: rest) cur curSize =
              cur :: parser.splitGo maxBytes rest [fc] fc.size := by
            simp [parser.splitGo, hA, hB, hc']
          constructor
          · rw [heq]
            simp [ih1.1]
          · intro b hb
            rw [heq, List.mem_cons] at hb
            rcases hb with rfl | hb
            · exact Or.inl ⟨hcurle, hall⟩
            · exact ih1.2 b hb
      · have hsum2 : curSize + fc.size = ((cur ++ [fc]).map parser.fileWithContent.size).sum := by
          simp [hcs]
        have hall2 : ∀ f ∈ cur ++ [fc], f.size ≤ maxBytes := by
          intro f hf
          rcases List.mem_append.mp hf with hf | hf
          · exact hall f hf
          · rw [List.mem_singleton] at hf; subst hf; exact hfc
        have ih2 := ihf (cur ++ [fc]) (curSize + fc.size) hsum2 (Nat.not_lt.mp hB) hall2
        constructor
        · rw [show parser.splitGo maxBytes (fc :: rest) cur curSize =
              parser.splitGo maxBytes rest (cur ++ [fc]) (curSize + fc.size) by
            simp [parser.splitGo, hA, hB]]
          rw [ih2.1]
          simp
        · intro b hb
          rw [show parser.splitGo maxBytes (fc :: rest) cur curSize =
              parser.splitGo maxBytes rest (cur ++ [fc]) (curSize + fc.size) by
            simp [parser.splitGo, hA, hB]] at hb
          exact ih2.2 b hb

/-- C2: for every file list and positive byte ceiling, `splitIntoBatches`
returns batches whose concatenation is the input list in order, every batch
with more than one file totals at most the ceiling, and every file larger
than the ceiling sits in a batch of its own. -/
theorem C2_splitIntoBatches (files : List parser.fileWithContent) (maxBytes : Nat)
    (_hpos : 0 < maxBytes) :
    (parser.splitIntoBatches files maxBytes).flatten = files ∧
    (∀ b ∈ parser.splitIntoBatches files maxBytes,
      1 < b.length → (b.map parser.fileWithContent.size).sum ≤ maxBytes) ∧
    (∀ b ∈ parser.splitIntoBatches files maxBytes,
      ∀ f ∈ b, maxBytes < f.size → b = [f]) := by
  have h := splitGo_spec maxBytes files [] 0 (by simp) (by simp) (by simp)
  refine ⟨by simpa using h.1, ?_, ?_⟩
  · intro b hb hlen
    rcases h.2 b hb with ⟨hle, _⟩ | ⟨f, rfl, _⟩
    · exact hle
    · simp at hlen
  · intro b hb f hf hbig
    rcases h.2 b hb with ⟨_, hallb⟩ | ⟨g, rfl, _⟩
    · exact absurd hbig (Nat.not_lt.mpr (hallb f hf))
    · rw [List.mem_singleton] at hf
      subst hf
      rfl

/-- Witness for C2 at a concrete file list and ceiling 10. -/
theorem C2_witness :
    0 < 10 ∧
    ((parser.splitIntoBatches
        [⟨"a", "", 5⟩, ⟨"b", "", 6⟩, ⟨"c", "", 12⟩] 10).flatten =
          [⟨"a", "", 5⟩, ⟨"b", "", 6⟩, ⟨"c", "", 12⟩] ∧
      (∀ b ∈ parser.splitIntoBatches
          [⟨"a", "", 5⟩, ⟨"b", "", 6⟩, ⟨"c", "", 12⟩] 10,
        1 < b.length → (b.map parser.fileWithContent.size).sum ≤ 10) ∧
      (∀ b ∈ parser.splitIntoBatches
          [⟨"a", "", 5⟩, ⟨"b", "", 6⟩, ⟨"c", "", 12⟩] 10,
        ∀ f ∈ b, 10 < f.size → b = [f])) :=
  ⟨by decide,
    C2_splitIntoBatches [⟨"a", "", 5⟩, ⟨"b", "", 6⟩, ⟨"c", "", 12⟩] 10 (by decide)⟩

theorem summaryFold_spec (results : List verifier.Result) :
    ∀ (a : Nat) (t : Int) (h l : Nat),
      results.foldl verifier.summaryStep (a, t, h, l) =
        (a + (verifiedOf results).length,
         t + ((verifiedOf results).map verifier.matchPct).sum,
         h + ((verifiedOf results).filter
                (fun r => decide (80 ≤ verifier.matchPct r))).length,
         l + ((verifiedOf results).filter
                (fun r => decide (verifier.matchPct r < 50))).length) := by
  induction results with
  | nil => intro a t h l; simp [verifiedOf]
  | cons r rest ih =>
    intro a t h l
    rcases hre : r.Error with _ | e
    · rcases hrv : r.Verification with _ | v
      · have hstep : verifier.summaryStep (a, t, h, l) r = (a, t, h, l) := by
          simp [verifier.summaryStep, hre, hrv]
        have hsv : verifier.isSuccessfullyVerified r = false := by
          simp [verifier.isSuccessfullyVerified, hre, hrv]
        simp only [List.foldl_cons, hstep, ih, verifiedOf, List.filter_cons, hsv,
          Bool.false_eq_true, if_false]
      · have hstep : verifier.summaryStep (a, t, h, l) r =
            (a + 1, t + v.MatchPercentage,
             h + (if 80 ≤ v.MatchPercentage then 1 else 0),
             l + (if 80 ≤ v.MatchPercentage then 0
                  else if v.MatchPercentage < 50 then 1 else 0)) := by
          simp [verifier.summaryStep, hre, hrv]
        have hsv : verifier.isSuccessfullyVerified r = true := by
          simp [verifier.isSuccessfullyVerified, hre, hrv]
        have hpct : verifier.matchPct r = v.MatchPercentage := by
          simp [verifier.matchPct, hrv]
        have e1 : verifiedOf (r :: rest) = r :: verifiedOf rest := by
          simp [verifiedOf, List.filter_cons, hsv]
        rw [List.foldl_cons, hstep, ih, e1]
        simp only [Prod.mk.injEq]
        refine ⟨?_, ?_, ?_, ?_⟩
        · simp only [List.length_cons]
          omega
        · simp only [List.map_cons, List.sum_cons, hpct]
          omega
        · by_cases h80 : (80:Int) ≤ v.MatchPercentage <;>
            simp only [List.filter_cons] <;> simp [hpct, h80] <;> omega
        · by_cases h80 : (80:Int) ≤ v.MatchPercentage <;>
            by_cases h50 : v.MatchPercentage < 50 <;>
            simp only [List.filter_cons] <;> simp [hpct, h80, h50] <;> omega
    · have hstep : verifier.summaryStep (a, t, h, l) r = (a, t, h, l) := by
        simp [verifier.summaryStep, hre]
      have hsv : verifier.isSuccessfullyVerified r = false := by
        simp [verifier.isSuccessfullyVerified, hre]
      simp only [List.foldl_cons, hstep, ih, verifiedOf, List.filter_cons, hsv,
        Bool.false_eq_true, if_false]

theorem calculateSummary_spec (results : List verifier.Result) :
    (verifier.calculateSummary results).VerifiedSpecs = (verifiedOf results).length ∧
    (verifier.calculateSummary results).AverageMatch =
      (if (verifiedOf results).length = 0 then 0
       else (((verifiedOf results).map verifier.matchPct).sum : ℚ) /
              ((verifiedOf results).length : ℚ)) ∧
    (verifier.calculateSummary results).HighMatchCount =
      ((verifiedOf results).filter (fun r => decide (80 ≤ verifier.matchPct r))).length ∧
    (verifier.calculateSummary results).LowMatchCount =
      ((verifiedOf results).filter (fun r => decide (verifier.matchPct r < 50))).length ∧
    ∀ threshold : Int,
      (verifier.calculateSummary results).IsPassing threshold = true ↔
        (threshold : ℚ) ≤ (verifier.calculateSummary results).AverageMatch := by
  have hf := summaryFold_spec results 0 0 0 0
  simp only [verifier.calculateSummary, hf]
  refine ⟨by simp, ?_, by simp, by simp, ?_⟩
  · by_cases h0 : (verifiedOf results).length = 0
    · simp [h0]
    · simp [h0, Nat.pos_of_ne_zero h0]
  · intro threshold
    simp [verifier.Summary.IsPassing]

/-- C3: `calculateSummary` counts `VerifiedSpecs` as exactly the results with
no error and a non-nil verification, `AverageMatch` is the mean match
percentage over exactly those results (0 when there are none),
`HighMatchCount` counts those with percentage ≥ 80 and `LowMatchCount` those
with percentage < 50, and `IsPassing(threshold)` holds iff
`AverageMatch ≥ threshold`; on five verified results with percentages
[90, 40, 85, 10, 60] this gives `AverageMatch = 57`, `HighMatchCount = 2`,
`LowMatchCount = 2`, passing at 50 and failing at 60. -/
theorem C3_calculateSummary :
    (∀ results : List verifier.Result,
      (verifier.calculateSummary results).VerifiedSpecs = (verifiedOf results).length ∧
      (verifier.calculateSummary results).AverageMatch =
        (if (verifiedOf results).length = 0 then 0
         else (((verifiedOf results).map verifier.matchPct).sum : ℚ) /
                ((verifiedOf results).length : ℚ)) ∧
      (verifier.calculateSummary results).HighMatchCount =
        ((verifiedOf results).filter (fun r => decide (80 ≤ verifier.matchPct r))).length ∧
      (verifier.calculateSummary results).LowMatchCount =
        ((verifiedOf results).filter (fun r => decide (verifier.matchPct r < 50))).length ∧
      ∀ threshold : Int,
        (verifier.calculateSummary results).IsPassing threshold = true ↔
          (threshold : ℚ) ≤ (verifier.calculateSummary results).AverageMatch) ∧
    ((verifier.calculateSummary (demoResults [90, 40, 85, 10, 60])).AverageMatch = 57 ∧
      (verifier.calculateSummary (demoResults [90, 40, 85, 10, 60])).HighMatchCount = 2 ∧
      (verifier.calculateSummary (demoResults [90, 40, 85, 10, 60])).LowMatchCount = 2 ∧
      (verifier.calculateSummary (demoResults [90, 40, 85, 10, 60])).IsPassing 50 = true ∧
      (verifier.calculateSummary (demoResults [90, 40, 85, 10, 60])).IsPassing 60 = false) := by
  refine ⟨calculateSummary_spec, ?_⟩
  obtain ⟨h1, h2, h3, h4, h5⟩ := calculateSummary_spec (demoResults [90, 40, 85, 10, 60])
  have hlen : (verifiedOf (demoResults [90, 40, 85, 10, 60])).length = 5 := by decide
  have hsum : ((verifiedOf (demoResults [90, 40, 85, 10, 60])).map verifier.matchPct).sum
      = 285 := by decide
  have hhigh : ((verifiedOf (demoResults [90, 40, 85, 10, 60])).filter
      (fun r => decide (80 ≤ verifier.matchPct r))).length = 2 := by decide
  have hlow : ((verifiedOf (demoResults [90, 40, 85, 10, 60])).filter
      (fun r => decide (verifier.matchPct r < 50))).length = 2 := by decide
  have havg : (verifier.calculateSummary (demoResults [90, 40, 85, 10, 60])).AverageMatch
      = 57 := by
    rw [h2, hlen, hsum]
    norm_num
  refine ⟨havg, by rw [h3, hhigh], by rw [h4, hlow], ?_, ?_⟩
  · exact (h5 50).mpr (by rw [havg]; norm_num)
  · cases hp : (verifier.calculateSummary (demoResults [90, 40, 85, 10, 60])).IsPassing 60 with
    | false => rfl
    | true =>
      have h60 := (h5 60).mp hp
      rw [havg] at h60
      norm_num at h60

theorem filterPartition {α : Type} (p : α → Bool) (l : List α) :
    (l.filter p).length + (l.filter (fun a => !p a)).length = l.length := by
  induction l with
  | nil => rfl
  | cons x rest ih =>
    by_cases hx : p x = true <;> simp [List.filter_cons, hx] <;> omega

theorem covFold_counts (m : List (String × parser.Spec)) (eps : List parser.Endpoint) :
    ∀ acc : parser.CovAcc,
      (eps.foldl (parser.covStep m) acc).coveredCount +
        (eps.foldl (parser.covStep m) acc).uncoveredCount =
        acc.coveredCount + acc.uncoveredCount + eps.length := by
  induction eps with
  | nil => intro acc; simp
  | cons ep rest ih =>
    intro acc
    rw [List.foldl_cons, ih]
    rcases hm : parser.matchSpecFor m (parser.NormalizePath ep.Path) with _ | spec <;>
      simp [parser.covStep, hm] <;> omega

/-- C4: every `CoverageReport` produced by the reconciliation core satisfies
`TotalEndpoints = CoveredEndpoints + UncoveredEndpoints` (each route is
counted exactly once), `CoveragePercentage` is covered/total·100 with 0 for
an empty route list, and `TotalSpecs` equals the number of specs marked
matched plus `OrphanedSpecs` (each parsed spec is matched or orphaned). -/
theorem C4_coverage_invariants (endpoints : List parser.Endpoint)
    (specs : List parser.Spec) :
    (parser.CalculateCoverage endpoints specs).TotalEndpoints =
      (parser.CalculateCoverage endpoints specs).CoveredEndpoints +
        (parser.CalculateCoverage endpoints specs).UncoveredEndpoints ∧
    (parser.CalculateCoverage endpoints specs).CoveragePercentage =
      (if (parser.CalculateCoverage endpoints specs).TotalEndpoints = 0 then 0
       else ((parser.CalculateCoverage endpoints specs).CoveredEndpoints : ℚ) /
              ((parser.CalculateCoverage endpoints specs).TotalEndpoints : ℚ) * 100) ∧
    (parser.CalculateCoverage endpoints specs).TotalSpecs =
      (specs.filter
        (fun s => (parser.coverageMatchedSpecs endpoints specs).contains s.FilePath)).length +
        (parser.CalculateCoverage endpoints specs).OrphanedSpecs := by
  refine ⟨?_, ?_, ?_⟩
  · have h := covFold_counts (parser.buildSpecPathMap specs) endpoints ⟨[], [], 0, 0, [], []⟩
    simp only [parser.CalculateCoverage]
    simp only at h
    omega
  · simp only [parser.CalculateCoverage]
    by_cases h0 : endpoints.length = 0
    · simp [h0]
    · simp [h0, Nat.pos_of_ne_zero h0]
  · simp only [parser.CalculateCoverage, parser.coverageMatchedSpecs, parser.orphansOf,
      List.length_map]
    rw [← filterPartition
      (fun s => ((endpoints.foldl (parser.covStep (parser.buildSpecPathMap specs))
        ⟨[], [], 0, 0, [], []⟩).matchedSpecs).contains s.FilePath) specs]

/-- C5 counterexample: for a document in which a `src/`-convention reference
precedes a `~/`-convention reference, `parseRelatedFiles` returns the
home-relative capture first — ["b.ts", "src/a.ts"] — not the document order
across both conventions ["src/a.ts", "b.ts"], because the code runs the two
regex scans separately and appends all tilde matches before all src matches. -/
theorem C5_counterexample :
    parser.parseRelatedFiles "see `src/a.ts` and `~/b.ts`" = ["b.ts", "src/a.ts"] ∧
    parser.parseRelatedFiles "see `src/a.ts` and `~/b.ts`" ≠ ["src/a.ts", "b.ts"] := by
  decide

/-- C5 amended: `RelatedFiles` is all `~/`-convention captures in document
order followed by all `src/`-convention captures in document order, duplicates
kept; demonstrated on a document interleaving both conventions and repeating
one reference. -/
theorem C5_relatedFiles_amended :
    (∀ content : String,
      parser.parseRelatedFiles content =
        (parser.tildeGo .seek content.data).map String.mk ++
          (parser.srcGo .seek content.data).map String.mk) ∧
    parser.parseRelatedFiles "`src/a.ts` x `~/b.ts` y `~/c.ts` z `src/d.ts` w `~/b.ts`" =
      ["b.ts", "c.ts", "b.ts", "src/a.ts", "src/d.ts"] ∧
    parser.parseRelatedFiles "`~/x.ts` and `~/x.ts`" = ["x.ts", "x.ts"] :=
  ⟨fun _ => rfl, by decide, by decide⟩

theorem takeWhile_middle {p : Char → Bool} (name : List Char) (x : Char) (rest : List Char)
    (hname : ∀ c ∈ name, p c = true) (hx : p x = false) :
    (name ++ x :: rest).takeWhile p = name := by
  induction name with
  | nil => simp [List.takeWhile_cons, hx]
  | cons a as ih =>
    have ha : p a = true := hname a (List.mem_cons_self a as)
    simp [List.takeWhile_cons, ha,
      ih (fun c hc => hname c (List.mem_cons_of_mem a hc))]

theorem dropWhile_middle {p : Char → Bool} (name : List Char) (x : Char) (rest : List Char)
    (hname : ∀ c ∈ name, p c = true) (hx : p x = false) :
    (name ++ x :: rest).dropWhile p = x :: rest := by
  induction name with
  | nil => simp [List.dropWhile_cons, hx]
  | cons a as ih =>
    have ha : p a = true := hname a (List.mem_cons_self a as)
    simp [List.dropWhile_cons, ha,
      ih (fun c hc => hname c (List.mem_cons_of_mem a hc))]

theorem matchTableRow_eval (cell1 cell2 : List Char)
    (h1 : cell1 ≠ []) (h2 : cell2 ≠ [])
    (hc1 : ∀ c ∈ cell1, c ≠ '|') (hc2 : ∀ c ∈ cell2, c ≠ '|') :
    parser.matchTableRow ('|' :: (cell1 ++ '|' :: (cell2 ++ ['|']))) = some (cell1, cell2) := by
  have p1 : ∀ c ∈ cell1, (c != '|') = true := by
    intro c hc
    simpa using hc1 c hc
  have p2 : ∀ c ∈ cell2, (c != '|') = true := by
    intro c hc
    simpa using hc2 c hc
  have hbar : (('|' : Char) != '|') = false := by decide
  have e1 : cell1.isEmpty = false := by
    cases cell1 with
    | nil => exact absurd rfl h1
    | cons a as => rfl
  have e2 : cell2.isEmpty = false := by
    cases cell2 with
    | nil => exact absurd rfl h2
    | cons a as => rfl
  have d1 := dropWhile_middle cell1 '|' (cell2 ++ ['|']) p1 hbar
  have t1 := takeWhile_middle cell1 '|' (cell2 ++ ['|']) p1 hbar
  have d2 : (cell2 ++ ['|']).dropWhile (fun c => c != '|') = ['|'] :=
    dropWhile_middle cell2 '|' [] p2 hbar
  have t2 : (cell2 ++ ['|']).takeWhile (fun c => c != '|') = cell2 :=
    takeWhile_middle cell2 '|' [] p2 hbar
  simp [parser.matchTableRow, d1, t1, d2, t2, e1, e2]

/-- C6 counterexample: a well-formed metadata row whose key is "PATH" (upper
case) is captured into `Metadata` but does NOT set `RoutePath` — the Go
switch matches the exact literals "パス"/"Path"/"path" and
"エンドポイント"/"Endpoint"/"endpoint", not case-insensitive keys — while the
same row with key "Path" does. -/
theorem C6_counterexample :
    (parser.parseMetadataTable ["| PATH | /users |"]).RoutePath = "" ∧
    (parser.parseMetadataTable ["| PATH | /users |"]).Metadata = [("PATH", "/users")] ∧
    (parser.parseMetadataTable ["| Path | /users |"]).RoutePath = "/users" := by
  decide

/-- C6 amended: every well-formed two-column table row (not containing the
separator marker "---") whose key, after trimming, is one of the exact
literals "パス", "Path", "path", "エンドポイント", "Endpoint", "endpoint"
(the two language variants in title and lower case, not arbitrary
case-insensitive keys) sets `RoutePath` to that row's value with surrounding
whitespace and backticks stripped. -/
theorem C6_metadata_amended (acc : parser.MetaAcc) (rawLine : String)
    (cell1 cell2 : List Char)
    (hline : (parser.trimSpace rawLine).data = '|' :: (cell1 ++ '|' :: (cell2 ++ ['|'])))
    (h1 : cell1 ≠ []) (h2 : cell2 ≠ [])
    (hc1 : ∀ c ∈ cell1, c ≠ '|') (hc2 : ∀ c ∈ cell2, c ≠ '|')
    (hkey : parser.trimSpace (String.mk cell1) ∈ parser.routeKeys)
    (hsep : parser.hasSubstr ['-', '-', '-'] (parser.trimSpace rawLine).data = false) :
    (parser.parseMetadataStep acc rawLine).RoutePath =
      parser.trimBackticks (parser.trimSpace (String.mk cell2)) := by
  have hrow := matchTableRow_eval cell1 cell2 h1 h2 hc1 hc2
  have hlast2 : ('|' :: (cell1 ++ '|' :: (cell2 ++ ['|']))).getLast? = some '|' := by
    have e : ('|' :: (cell1 ++ '|' :: (cell2 ++ ['|']))) =
        ('|' :: cell1 ++ '|' :: cell2) ++ ['|'] := by
      simp
    rw [e, List.getLast?_concat]
  rw [hline] at hsep
  simp only [parser.parseMetadataStep, hline, hlast2, hrow, hsep, List.head?_cons]
  simp [hkey]

/-- Witness for C6 at the concrete row "| path | `/x` |". -/
theorem C6_witness :
    ((parser.trimSpace "| path | `/x` |").data =
        '|' :: ((" path " : String).data ++ '|' :: ((" `/x` " : String).data ++ ['|'])) ∧
      (" path " : String).data ≠ [] ∧
      (" `/x` " : String).data ≠ [] ∧
      (∀ c ∈ (" path " : String).data, c ≠ '|') ∧
      (∀ c ∈ (" `/x` " : String).data, c ≠ '|') ∧
      parser.trimSpace (String.mk (" path " : String).data) ∈ parser.routeKeys ∧
      parser.hasSubstr ['-', '-', '-'] (parser.trimSpace "| path | `/x` |").data = false) ∧
    (parser.parseMetadataStep ⟨false, [], ""⟩ "| path | `/x` |").RoutePath =
      parser.trimBackticks (parser.trimSpace (String.mk (" `/x` " : String).data)) :=
  ⟨⟨by decide, by decide, by decide, by decide, by decide, by decide, by decide⟩,
    C6_metadata_amended ⟨false, [], ""⟩ "| path | `/x` |"
      (" path " : String).data (" `/x` " : String).data
      (by decide) (by decide) (by decide) (by decide) (by decide) (by decide) (by decide)⟩

/-- C10: whenever code-file resolution yields an empty list (after a
successful parse), `verifyOne` returns a result with a non-nil zero-match
verification and no error, and the judge is never consulted — the result is
identical for every judge. -/
theorem C10_zero_codefiles (specFile : String) (pr : Except String parser.Spec)
    (fr : parser.Spec → Except String (List String))
    (rr : List String → Except String (List (String × String)))
    (j j' : String → List (String × String) → Except String ai.VerificationResult)
    (spec : parser.Spec) (hp : pr = .ok spec) (hf : fr spec = .ok []) :
    verifier.verifyOne specFile pr fr rr j =
      { SpecFile := parser.baseName specFile
        Title := spec.Title
        RoutePath := spec.RoutePath
        CodeFiles := []
        Verification := some
          { MatchPercentage := 0
            MatchedItems := []
            UnmatchedItems := ["対応するコードが見つかりません"]
            Notes := "未実装の可能性があります" }
        Error := none } ∧
    verifier.verifyOne specFile pr fr rr j = verifier.verifyOne specFile pr fr rr j' := by
  subst hp
  constructor
  · simp [verifier.verifyOne, hf]
  · simp [verifier.verifyOne, hf]

/-- Witness for C10: a concrete spec whose file resolution is empty, under two
different judges. -/
theorem C10_witness :
    ((Except.ok demoSpec : Except String parser.Spec) = Except.ok demoSpec ∧
      (fun _ : parser.Spec => (Except.ok [] : Except String (List String))) demoSpec =
        Except.ok []) ∧
    verifier.verifyOne "specs/a.md" (Except.ok demoSpec)
        (fun _ => Except.ok []) (fun _ => Except.ok [])
        (fun _ _ => Except.error "judge down") =
      { SpecFile := parser.baseName "specs/a.md"
        Title := demoSpec.Title
        RoutePath := demoSpec.RoutePath
        CodeFiles := []
        Verification := some
          { MatchPercentage := 0
            MatchedItems := []
            UnmatchedItems := ["対応するコードが見つかりません"]
            Notes := "未実装の可能性があります" }
        Error := none } ∧
    verifier.verifyOne "specs/a.md" (Except.ok demoSpec)
        (fun _ => Except.ok []) (fun _ => Except.ok [])
        (fun _ _ => Except.error "judge down") =
      verifier.verifyOne "specs/a.md" (Except.ok demoSpec)
        (fun _ => Except.ok []) (fun _ => Except.ok [])
        (fun _ _ => Except.ok ⟨77, [], [], ""⟩) :=
  ⟨⟨rfl, rfl⟩,
    (C10_zero_codefiles "specs/a.md" (Except.ok demoSpec)
      (fun _ => Except.ok []) (fun _ => Except.ok [])
      (fun _ _ => Except.error "judge down") (fun _ _ => Except.ok ⟨77, [], [], ""⟩)
      demoSpec rfl rfl).1,
    (C10_zero_codefiles "specs/a.md" (Except.ok demoSpec)
      (fun _ => Except.ok []) (fun _ => Except.ok [])
      (fun _ _ => Except.error "judge down") (fun _ _ => Except.ok ⟨77, [], [], ""⟩)
      demoSpec rfl rfl).2⟩
